import Mathlib

/-!
Shallow embedding of the knowledge-map client's core logic: the incremental
graph-merge engine (`addToGraph` in the application component) and the
drag / long-press / click gesture disambiguation of the graph renderer
(the d3 `start` / `drag` / `end` handlers, the 1000 ms `setTimeout`
callback, and the `click` handler).

Coordinates are modelled as rationals.  JavaScript truthiness tests on
optional numbers and strings are modelled explicitly (`truthyQ`,
`truthyS`).  Effectful ingredients of node synthesis (fresh ids from
`Date.now` / `Math.random`, palette choice, coordinate jitter) are
supplied by an explicit environment (`FreshEnv`).
-/

/-- Relation categories of a generated item (`relationType` in `types.ts`). -/
inductive RelationType
  | positive
  | negative
  | neutral
  | competitor
  | hierarchical
deriving DecidableEq

/-- Hex color for a relation category (`getColorForType` in the app
component; the source switches on the string value, with the default
branch covering `neutral` and anything else). -/
def getColorForType : RelationType → String
  | .positive => "#22c55e"
  | .negative => "#ef4444"
  | .competitor => "#f97316"
  | .hierarchical => "#3b82f6"
  | .neutral => "#94a3b8"

/-- Graph node (`GraphNode` in `types.ts`).  The optional fields `fx`,
`fy`, `group` and `radius` are never read or written by the merge engine
and are omitted here. -/
structure GraphNode where
  id : String
  label : String
  x : Option ℚ := none
  y : Option ℚ := none
  color : Option String := none
  explanation : Option String := none
deriving DecidableEq

/-- Endpoint of an edge: `source` / `target` store either a node-id
string or, after d3's force-link pass has resolved them, the node object
itself ("D3 converts string ID to object ref" in `types.ts`). -/
inductive EdgeEnd
  | str (s : String)
  | node (n : GraphNode)
deriving DecidableEq

/-- JS strict equality of an endpoint against an id string: an object
never compares strictly equal to a string. -/
def EdgeEnd.eqStr : EdgeEnd → String → Bool
  | .str s, t => s == t
  | .node _, _ => false

/-- Reading the `id` property off an endpoint as the source does with
`(e.source as GraphNode).id`: a string has no such property
(JS `undefined`, modelled as `none`), a node object yields its id. -/
def EdgeEnd.idOf : EdgeEnd → Option String
  | .str _ => none
  | .node n => some n.id

/-- The node id an endpoint denotes, whichever form it is in. -/
def EdgeEnd.refId : EdgeEnd → String
  | .str s => s
  | .node n => n.id

/-- Graph edge (`GraphEdge` in `types.ts`). -/
structure GraphEdge where
  source : EdgeEnd
  target : EdgeEnd
  relation : String
  color : Option String := none
deriving DecidableEq

/-- Graph state (`GraphData` in `types.ts`). -/
structure GraphData where
  nodes : List GraphNode
  edges : List GraphEdge
deriving DecidableEq

/-- Record produced by the language-model client (`GeneratedItem` in
`types.ts`); all fields are required there. -/
structure GeneratedItem where
  label : String
  relation : String
  relationType : RelationType
  explanation : String
deriving DecidableEq

/-- Environment supplying the effectful ingredients consumed when the
k-th new node of a merge is synthesized: its fresh id, its palette color
(`getRandomColor`), and the two `Math.random()` draws used for x- and
y-jitter. -/
structure FreshEnv where
  freshId : Nat → String
  freshColor : Nat → String
  rx : Nat → ℚ
  ry : Nat → ℚ

/-- JS truthiness of an optional number: `undefined` and `0` are falsy. -/
def truthyQ : Option ℚ → Bool
  | none => false
  | some q => q != 0

/-- JS truthiness of an optional string: `undefined` and the empty
string are falsy. -/
def truthyS : Option String → Bool
  | none => false
  | some s => s != ""

/-- Lowercasing as used for dedup keys (`label.toLowerCase()` in the
source), modelled character by character. -/
def jsToLower (s : String) : String := ⟨s.data.map Char.toLower⟩

/-- Dedup key of a node: its label lowercased (`n.label.toLowerCase()`). -/
def labelKey (n : GraphNode) : String := jsToLower n.label

/-- Lookup in the label map.  `addToGraph` keeps a JS `Map` keyed by
lowercased label; the `Map` constructor keeps the last entry for a
duplicated key, and `map.set` on a node freshly pushed to the end of the
node array likewise keeps the last occurrence, so the map's entry for a
key is always the last node of the current node list whose lowercased
label equals that key. -/
def findLastLabel (key : String) : List GraphNode → Option GraphNode
  | [] => none
  | n :: rest =>
    match findLastLabel key rest with
    | some m => some m
    | none => if labelKey n = key then some n else none

/-- Explanation backfill.  The source mutates the map entry in place
(`existingNode.explanation = item.explanation`); in this pure model that
updates the last node of the list whose lowercased label equals the key,
which is exactly the node the map holds. -/
def backfillLast (key exp : String) : List GraphNode → List GraphNode
  | [] => []
  | n :: rest =>
    match findLastLabel key rest with
    | some _ => n :: backfillLast key exp rest
    | none =>
      if labelKey n = key then { n with explanation := some exp } :: rest
      else n :: rest

/-- The duplicate-edge test of `addToGraph`.  The first two disjuncts
compare string-form endpoints in both orientations; the third compares
the `.id` of the endpoints (meaningful only for object-form endpoints)
in the source-to-target orientation only, exactly as the source does. -/
def edgeMatches (sourceId targetId : String) (e : GraphEdge) : Bool :=
  (e.source.eqStr sourceId && e.target.eqStr targetId) ||
  (e.source.eqStr targetId && e.target.eqStr sourceId) ||
  (match e.source.idOf, e.target.idOf with
   | some a, some b => a == sourceId && b == targetId
   | _, _ => false)

/-- The node synthesized for an item whose label resolves to no existing
node, `k` counting the new nodes created so far in this merge.  Note the
truthiness tests on the source coordinates
(`sourceNode.x ? sourceNode.x + (Math.random() - 0.5) * 60 : undefined`). -/
def mkNewNode (env : FreshEnv) (sourceNode : GraphNode) (item : GeneratedItem)
    (k : Nat) : GraphNode :=
  { id := env.freshId k
    label := item.label
    x := if truthyQ sourceNode.x then
           some (sourceNode.x.getD 0 + (env.rx k - 1/2) * 60)
         else none
    y := if truthyQ sourceNode.y then
           some (sourceNode.y.getD 0 + (env.ry k - 1/2) * 60)
         else none
    color := some (env.freshColor k)
    explanation := some item.explanation }

/-- The edge-creation step shared by both branches of the loop body:
push a string-form edge unless one already matches the unordered pair
test or the edge would be a self-loop. -/
def pushEdge (sourceNode : GraphNode) (targetId : String) (item : GeneratedItem)
    (edges : List GraphEdge) : List GraphEdge :=
  if !(edges.any (edgeMatches sourceNode.id targetId)) && sourceNode.id != targetId then
    edges ++ [{ source := .str sourceNode.id
                target := .str targetId
                relation := item.relation
                color := some (getColorForType item.relationType) }]
  else edges

/-- Intermediate state of the `newItems.forEach` loop: the evolving node
and edge arrays plus the count of nodes created so far in this merge. -/
structure MergeState where
  nodes : List GraphNode
  edges : List GraphEdge
  fresh : Nat
deriving DecidableEq

/-- One iteration of the `newItems.forEach` loop of `addToGraph`:
resolve the item's label against the current nodes; on a hit, backfill
the explanation when the cached one is falsy and the item's is truthy;
on a miss, synthesize and append a new node; then run the shared
edge-creation step. -/
def processItem (env : FreshEnv) (sourceNode : GraphNode) (st : MergeState)
    (item : GeneratedItem) : MergeState :=
  match findLastLabel (jsToLower item.label) st.nodes with
  | some existing =>
    { nodes :=
        if !truthyS existing.explanation && item.explanation != "" then
          backfillLast (jsToLower item.label) item.explanation st.nodes
        else st.nodes
      edges := pushEdge sourceNode existing.id item st.edges
      fresh := st.fresh }
  | none =>
    let newNode := mkNewNode env sourceNode item st.fresh
    { nodes := st.nodes ++ [newNode]
      edges := pushEdge sourceNode newNode.id item st.edges
      fresh := st.fresh + 1 }

/-- The merge engine `addToGraph` of the application component: fold the
per-item step over the batch, starting from copies of the previous node
and edge arrays. -/
def addToGraph (env : FreshEnv) (g : GraphData) (sourceNode : GraphNode)
    (newItems : List GeneratedItem) : GraphData :=
  ⟨(newItems.foldl (processItem env sourceNode) ⟨g.nodes, g.edges, 0⟩).nodes,
   (newItems.foldl (processItem env sourceNode) ⟨g.nodes, g.edges, 0⟩).edges⟩

/-- Ids of the nodes of a list, in order. -/
def nodeIds (nodes : List GraphNode) : List String := nodes.map fun n => n.id

/-- Lowercased labels (dedup keys) of the nodes of a list, in order. -/
def nodeKeys (nodes : List GraphNode) : List String := nodes.map labelKey

/-- Lowercased labels of a batch of items, in order. -/
def itemKeys (items : List GeneratedItem) : List String :=
  items.map fun it => jsToLower it.label

/-- Number of distinct keys of the batch not already in `seen`. -/
def distinctNewCount (seen : List String) : List String → Nat
  | [] => 0
  | k :: ks =>
    if k ∈ seen then distinctNewCount seen ks
    else 1 + distinctNewCount (k :: seen) ks

/-- Every edge endpoint of the graph names a node present in its node
list. -/
def edgesClosed (g : GraphData) : Prop :=
  ∀ e ∈ g.edges,
    e.source.refId ∈ nodeIds g.nodes ∧ e.target.refId ∈ nodeIds g.nodes

/-- Two edges connect the same unordered pair of node ids. -/
def samePair (e₁ e₂ : GraphEdge) : Bool :=
  (e₁.source.refId == e₂.source.refId && e₁.target.refId == e₂.target.refId) ||
  (e₁.source.refId == e₂.target.refId && e₁.target.refId == e₂.source.refId)

/-- No two edges of the list connect the same unordered pair of node
ids. -/
def noDupPairs : List GraphEdge → Bool
  | [] => true
  | e :: rest => rest.all (fun e₂ => !samePair e e₂) && noDupPairs rest

/-- Per-interaction state of the gesture logic: the handler-closure
variables `isDragging` and `longPressTriggered`, whether the 1000 ms
timer is pending (`longPressTimer` non-null), whether the node's
simulated position is pinned (`fx` / `fy` set), and instrumentation
counting invocations of the two callbacks. -/
structure GestureState where
  isDragging : Bool
  longPressTriggered : Bool
  timerArmed : Bool
  pinned : Bool
  clickCount : Nat
  longPressCount : Nat
deriving DecidableEq

/-- Events delivered to the gesture logic: d3 `start`, d3 `drag`
(pointer movement), the `setTimeout` callback, d3 `end`, and the DOM
`click` event that follows the release. -/
inductive GestureEvent
  | press
  | dragMove
  | timerFire
  | release
  | clickEvt
deriving DecidableEq

/-- Quiescent state before any interaction. -/
def gestureInit : GestureState :=
  { isDragging := false, longPressTriggered := false, timerArmed := false
    pinned := false, clickCount := 0, longPressCount := 0 }

/-- Transition function read off the d3 `start`, `drag` and `end`
handlers, the 1000 ms `setTimeout` callback, and the `click` handler of
the node selection.  A cleared timer never fires, so `timerFire` is a
no-op when the timer is not armed. -/
def gestureStep (s : GestureState) : GestureEvent → GestureState
  | .press =>
    { s with isDragging := false, longPressTriggered := false
             timerArmed := true, pinned := true }
  | .dragMove =>
    { s with timerArmed := false, isDragging := true }
  | .timerFire =>
    if s.timerArmed then
      { s with timerArmed := false, longPressTriggered := true
               longPressCount := s.longPressCount + 1 }
    else s
  | .release =>
    { s with timerArmed := false, pinned := false }
  | .clickEvt =>
    if s.isDragging || s.longPressTriggered then s
    else { s with clickCount := s.clickCount + 1 }

/-- Run a gesture event trace from the quiescent state. -/
def runGesture (events : List GestureEvent) : GestureState :=
  events.foldl gestureStep gestureInit

/-- Browser event schedule for a press on a node held for `hold`
milliseconds with no pointer movement: the 1000 ms timer callback runs
before the release exactly when the hold lasts at least 1000 ms, and the
DOM `click` event fires after the release (d3 does not suppress it when
the pointer has not moved). -/
def tapTrace (hold : Nat) : List GestureEvent :=
  if 1000 ≤ hold then [.press, .timerFire, .release, .clickEvt]
  else [.press, .release, .clickEvt]

/-! ### Concrete fixtures used by closed theorems -/

/-- Deterministic environment for concrete runs: constant fresh id,
constant palette color, both jitter draws fixed at one half (a legal
value of `Math.random()`). -/
def env0 : FreshEnv :=
  { freshId := fun _ => "n0", freshColor := fun _ => "#ec4899",
    rx := fun _ => 1/2, ry := fun _ => 1/2 }

/-- Node with id "a", labelled "Octopus". -/
def nodeA : GraphNode := { id := "a", label := "Octopus" }

/-- Node with id "b", labelled "Cephalopod". -/
def nodeB : GraphNode := { id := "b", label := "Cephalopod" }

/-- Graph holding nodes "a" and "b" and one edge between them whose
endpoints are in object form, exactly as d3's force-link pass leaves an
edge created as strings after a render. -/
def g3 : GraphData :=
  { nodes := [nodeA, nodeB]
    edges := [{ source := .node nodeA, target := .node nodeB,
                relation := "is a type of", color := some "#3b82f6" }] }

/-- Item whose label resolves (case-insensitively) to node "a". -/
def item3 : GeneratedItem :=
  { label := "Octopus", relation := "includes",
    relationType := .hierarchical, explanation := "" }

/-- Source node whose id "s" appears in no graph below. -/
def srcMissing : GraphNode := { id := "s", label := "Ghost" }

/-- Generic fresh-labelled item. -/
def item1 : GeneratedItem :=
  { label := "Alpha", relation := "rel", relationType := .neutral,
    explanation := "" }

/-- Source node whose position is defined but has x-coordinate 0. -/
def srcZero : GraphNode :=
  { id := "z", label := "Zero", x := some 0, y := some 10 }

/-- Node with a non-empty cached explanation. -/
def nodeE : GraphNode :=
  { id := "e", label := "Echo", explanation := some "cached" }

/-- Item resolving to `nodeE`, carrying its own explanation. -/
def itemEcho : GeneratedItem :=
  { label := "Echo", relation := "rel", relationType := .positive,
    explanation := "fresh" }

/-- Node whose cached explanation is the empty string. -/
def nodeEmpty : GraphNode :=
  { id := "d", label := "Delta", explanation := some "" }

/-- Item resolving to `nodeEmpty`, carrying a non-empty explanation. -/
def itemDelta : GeneratedItem :=
  { label := "Delta", relation := "rel", relationType := .negative,
    explanation := "filled" }

/-- Source node with both coordinates defined and nonzero. -/
def srcPos : GraphNode :=
  { id := "p", label := "Pos", x := some 5, y := some 7 }

/-- The node `addToGraph env0 (GraphData.mk [] []) srcPos [item1]`
synthesizes: both jitter draws are one half, so the new node sits
exactly at the source position. -/
def nPos : GraphNode :=
  { id := "n0", label := "Alpha",
    x := some (5 + ((1 : ℚ)/2 - 1/2) * 60),
    y := some (7 + ((1 : ℚ)/2 - 1/2) * 60),
    color := some "#ec4899", explanation := some "" }

/-! ### Lemmas about the label map and the backfill -/

theorem findLastLabel_eq_none_iff (key : String) (nodes : List GraphNode) :
    findLastLabel key nodes = none ↔ ∀ n ∈ nodes, labelKey n ≠ key := by
  induction nodes with
  | nil => simp [findLastLabel]
  | cons n rest ih =>
    rw [findLastLabel]
    cases h : findLastLabel key rest with
    | some m =>
      have hne : ¬ (∀ x ∈ rest, labelKey x ≠ key) := by
        rw [← ih, h]; simp
      simp only [List.forall_mem_cons]
      constructor
      · intro hc; exact absurd hc (by simp)
      · rintro ⟨-, h2⟩; exact absurd h2 hne
    | none =>
      have hall : ∀ x ∈ rest, labelKey x ≠ key := ih.mp h
      by_cases hk : labelKey n = key
      · rw [if_pos hk]
        simp only [List.forall_mem_cons]
        constructor
        · intro hc; exact absurd hc (by simp)
        · rintro ⟨h1, -⟩; exact absurd hk h1
      · rw [if_neg hk]
        exact iff_of_true rfl (List.forall_mem_cons.mpr ⟨hk, hall⟩)

theorem findLastLabel_mem {key : String} {nodes : List GraphNode} {ex : GraphNode}
    (h : findLastLabel key nodes = some ex) : ex ∈ nodes := by
  induction nodes with
  | nil => simp [findLastLabel] at h
  | cons n rest ih =>
    rw [findLastLabel] at h
    cases h' : findLastLabel key rest with
    | some m =>
      rw [h'] at h; cases h
      exact List.mem_cons_of_mem _ (ih h')
    | none =>
      rw [h'] at h
      by_cases hk : labelKey n = key
      · rw [if_pos hk] at h; cases h; exact List.mem_cons_self _ _
      · rw [if_neg hk] at h; cases h

theorem findLastLabel_key {key : String} {nodes : List GraphNode} {ex : GraphNode}
    (h : findLastLabel key nodes = some ex) : labelKey ex = key := by
  induction nodes with
  | nil => simp [findLastLabel] at h
  | cons n rest ih =>
    rw [findLastLabel] at h
    cases h' : findLastLabel key rest with
    | some m =>
      rw [h'] at h; cases h; exact ih h'
    | none =>
      rw [h'] at h
      by_cases hk : labelKey n = key
      · rw [if_pos hk] at h; cases h; exact hk
      · rw [if_neg hk] at h; cases h

theorem mem_nodeKeys_of_findLastLabel {key : String} {nodes : List GraphNode}
    {ex : GraphNode} (h : findLastLabel key nodes = some ex) :
    key ∈ nodeKeys nodes := by
  have hm := findLastLabel_mem h
  have hk := findLastLabel_key h
  rw [nodeKeys]
  exact hk ▸ List.mem_map_of_mem _ hm

theorem findLastLabel_eq_none_of_not_mem {key : String} {nodes : List GraphNode}
    (h : key ∉ nodeKeys nodes) : findLastLabel key nodes = none := by
  rw [findLastLabel_eq_none_iff]
  intro n hn hk
  exact h (hk ▸ List.mem_map_of_mem _ hn)

theorem set_self_of_getElem? {α : Type _} (l : List α) (i : Nat) (a : α)
    (h : l[i]? = some a) : l.set i a = l := by
  induction l generalizing i with
  | nil => simp at h
  | cons x xs ih =>
    cases i with
    | zero =>
      simp only [List.getElem?_cons_zero, Option.some.injEq] at h
      simp [h]
    | succ j =>
      simp only [List.getElem?_cons_succ] at h
      rw [List.set_cons_succ, ih j h]

theorem backfillLast_spec (key exp : String) (nodes : List GraphNode) :
    (findLastLabel key nodes = none ∧ backfillLast key exp nodes = nodes) ∨
    (∃ ex i, findLastLabel key nodes = some ex ∧ nodes[i]? = some ex ∧
      backfillLast key exp nodes =
        nodes.set i { ex with explanation := some exp }) := by
  induction nodes with
  | nil => exact Or.inl ⟨rfl, rfl⟩
  | cons n rest ih =>
    rcases ih with ⟨h1, h2⟩ | ⟨ex, i, h1, h2, h3⟩
    · rw [findLastLabel, backfillLast, h1, h2]
      by_cases hk : labelKey n = key
      · rw [if_pos hk, if_pos hk]
        exact Or.inr ⟨n, 0, rfl, by simp, rfl⟩
      · rw [if_neg hk, if_neg hk]
        exact Or.inl ⟨rfl, rfl⟩
    · rw [findLastLabel, backfillLast, h1]
      refine Or.inr ⟨ex, i + 1, rfl, by simpa using h2, ?_⟩
      rw [h3, List.set_cons_succ]

theorem backfillLast_length (key exp : String) (nodes : List GraphNode) :
    (backfillLast key exp nodes).length = nodes.length := by
  rcases backfillLast_spec key exp nodes with ⟨-, h⟩ | ⟨ex, i, -, -, h⟩
  · rw [h]
  · rw [h, List.length_set]

theorem backfillLast_nodeKeys (key exp : String) (nodes : List GraphNode) :
    nodeKeys (backfillLast key exp nodes) = nodeKeys nodes := by
  rcases backfillLast_spec key exp nodes with ⟨-, h⟩ | ⟨ex, i, -, h2, h⟩
  · rw [h]
  · rw [h]
    unfold nodeKeys
    rw [List.map_set]
    exact set_self_of_getElem? _ _ _ (by rw [List.getElem?_map, h2]; rfl)

theorem backfillLast_nodeIds (key exp : String) (nodes : List GraphNode) :
    nodeIds (backfillLast key exp nodes) = nodeIds nodes := by
  rcases backfillLast_spec key exp nodes with ⟨-, h⟩ | ⟨ex, i, -, h2, h⟩
  · rw [h]
  · rw [h]
    unfold nodeIds
    rw [List.map_set]
    exact set_self_of_getElem? _ _ _ (by rw [List.getElem?_map, h2]; rfl)

/-! ### Characterization of one loop iteration -/

theorem processItem_found (env : FreshEnv) (src : GraphNode) (st : MergeState)
    (item : GeneratedItem) (ex : GraphNode)
    (h : findLastLabel (jsToLower item.label) st.nodes = some ex) :
    processItem env src st item =
      { nodes :=
          if !truthyS ex.explanation && item.explanation != "" then
            backfillLast (jsToLower item.label) item.explanation st.nodes
          else st.nodes
        edges := pushEdge src ex.id item st.edges
        fresh := st.fresh } := by
  unfold processItem
  rw [h]

theorem processItem_new (env : FreshEnv) (src : GraphNode) (st : MergeState)
    (item : GeneratedItem)
    (h : findLastLabel (jsToLower item.label) st.nodes = none) :
    processItem env src st item =
      { nodes := st.nodes ++ [mkNewNode env src item st.fresh]
        edges := pushEdge src (mkNewNode env src item st.fresh).id item st.edges
        fresh := st.fresh + 1 } := by
  unfold processItem
  rw [h]

/-! ### Node-count accounting -/

theorem distinctNewCount_congr :
    ∀ (ks : List String) (s₁ s₂ : List String),
      (∀ x, x ∈ s₁ ↔ x ∈ s₂) →
      distinctNewCount s₁ ks = distinctNewCount s₂ ks := by
  intro ks
  induction ks with
  | nil => intro s₁ s₂ _; rfl
  | cons k ks ih =>
    intro s₁ s₂ hs
    rw [distinctNewCount, distinctNewCount]
    by_cases hk : k ∈ s₁
    · rw [if_pos hk, if_pos ((hs k).mp hk)]
      exact ih s₁ s₂ hs
    · rw [if_neg hk, if_neg (fun hc => hk ((hs k).mpr hc))]
      refine congrArg (1 + ·) (ih (k :: s₁) (k :: s₂) ?_)
      intro x
      simp only [List.mem_cons]
      exact or_congr Iff.rfl (hs x)

theorem nodeKeys_append (l₁ l₂ : List GraphNode) :
    nodeKeys (l₁ ++ l₂) = nodeKeys l₁ ++ nodeKeys l₂ := by
  unfold nodeKeys
  exact List.map_append _ _ _

theorem foldl_node_count (env : FreshEnv) (src : GraphNode) :
    ∀ (items : List GeneratedItem) (st : MergeState),
      ((items.foldl (processItem env src) st).nodes).length =
        st.nodes.length + distinctNewCount (nodeKeys st.nodes) (itemKeys items) := by
  intro items
  induction items with
  | nil => intro st; simp [itemKeys, distinctNewCount]
  | cons it its ih =>
    intro st
    rw [List.foldl_cons]
    have hkeys : itemKeys (it :: its) = jsToLower it.label :: itemKeys its := rfl
    rw [hkeys]
    cases h : findLastLabel (jsToLower it.label) st.nodes with
    | some ex =>
      have hmem : jsToLower it.label ∈ nodeKeys st.nodes :=
        mem_nodeKeys_of_findLastLabel h
      rw [processItem_found env src st it ex h]
      have hnodes :
          (if !truthyS ex.explanation && it.explanation != "" then
             backfillLast (jsToLower it.label) it.explanation st.nodes
           else st.nodes).length = st.nodes.length ∧
          nodeKeys
            (if !truthyS ex.explanation && it.explanation != "" then
               backfillLast (jsToLower it.label) it.explanation st.nodes
             else st.nodes) = nodeKeys st.nodes := by
        by_cases hg : (!truthyS ex.explanation && it.explanation != "") = true
        · rw [if_pos hg]
          exact ⟨backfillLast_length _ _ _, backfillLast_nodeKeys _ _ _⟩
        · rw [if_neg hg]
          exact ⟨rfl, rfl⟩
      rw [ih]
      rw [distinctNewCount, if_pos hmem]
      rw [hnodes.1, hnodes.2]
    | none =>
      have hmem : jsToLower it.label ∉ nodeKeys st.nodes := by
        intro hc
        unfold nodeKeys at hc
        rcases List.mem_map.mp hc with ⟨n, hn, hkn⟩
        exact (findLastLabel_eq_none_iff _ _).mp h n hn hkn
      rw [processItem_new env src st it]
      · rw [ih]
        rw [distinctNewCount, if_neg hmem]
        have hlen :
            (st.nodes ++ [mkNewNode env src it st.fresh]).length =
              st.nodes.length + 1 := by
          simp
        have hk :
            nodeKeys (st.nodes ++ [mkNewNode env src it st.fresh]) =
              nodeKeys st.nodes ++ [jsToLower it.label] := by
          rw [nodeKeys_append]; rfl
        rw [hlen, hk]
        have hcong :
            distinctNewCount (nodeKeys st.nodes ++ [jsToLower it.label]) (itemKeys its) =
              distinctNewCount (jsToLower it.label :: nodeKeys st.nodes) (itemKeys its) := by
          refine distinctNewCount_congr _ _ _ ?_
          intro x
          simp only [List.mem_append, List.mem_cons, List.not_mem_nil,
            or_false]
          exact or_comm
        rw [hcong]
        omega
      · exact h

/-- C2 (confirmed): merge increases the node count by exactly the number
of distinct new lowercased labels of the batch — duplicates within the
batch collapse to one node, and an item whose label matches an existing
node's label case-insensitively reuses that node instead of creating a
new one. -/
theorem merge_node_count (env : FreshEnv) (g : GraphData) (src : GraphNode)
    (items : List GeneratedItem) :
    (addToGraph env g src items).nodes.length =
      g.nodes.length + distinctNewCount (nodeKeys g.nodes) (itemKeys items) := by
  unfold addToGraph
  exact foldl_node_count env src items ⟨g.nodes, g.edges, 0⟩

/-- C9 (confirmed): merging an empty item batch is the identity on the
graph value — the `forEach` loop body never runs and the fresh copies of
the node and edge arrays are element-for-element the old ones. -/
theorem merge_empty_items_identity (env : FreshEnv) (g : GraphData)
    (src : GraphNode) :
    addToGraph env g src [] = g := by
  cases g
  rfl

/-! ### Edge and id accounting across a merge -/

theorem pushEdge_cases (src : GraphNode) (tid : String) (item : GeneratedItem)
    (edges : List GraphEdge) :
    pushEdge src tid item edges = edges ∨
    pushEdge src tid item edges =
      edges ++ [{ source := .str src.id, target := .str tid,
                  relation := item.relation,
                  color := some (getColorForType item.relationType) }] := by
  unfold pushEdge
  by_cases h : (!(edges.any (edgeMatches src.id tid)) && src.id != tid) = true
  · rw [if_pos h]; exact Or.inr rfl
  · rw [if_neg h]; exact Or.inl rfl

theorem processItem_edges_extra (env : FreshEnv) (src : GraphNode)
    (st : MergeState) (it : GeneratedItem) :
    ∃ mid, (processItem env src st it).edges = st.edges ++ mid ∧
      ∀ e ∈ mid, e.source = EdgeEnd.str src.id := by
  have hpe : ∀ tid, ∃ mid, pushEdge src tid it st.edges = st.edges ++ mid ∧
      ∀ e ∈ mid, e.source = EdgeEnd.str src.id := by
    intro tid
    rcases pushEdge_cases src tid it st.edges with hp | hp
    · exact ⟨[], by simpa using hp, by simp⟩
    · refine ⟨[{ source := .str src.id, target := .str tid,
                 relation := it.relation,
                 color := some (getColorForType it.relationType) }], hp, ?_⟩
      intro e he
      rw [List.mem_singleton] at he
      rw [he]
  cases h : findLastLabel (jsToLower it.label) st.nodes with
  | some ex =>
    rw [processItem_found env src st it ex h]
    exact hpe ex.id
  | none =>
    rw [processItem_new env src st it h]
    exact hpe (mkNewNode env src it st.fresh).id

theorem foldl_edges_extra (env : FreshEnv) (src : GraphNode) :
    ∀ (items : List GeneratedItem) (st : MergeState),
      ∃ extra, (items.foldl (processItem env src) st).edges = st.edges ++ extra ∧
        ∀ e ∈ extra, e.source = EdgeEnd.str src.id := by
  intro items
  induction items with
  | nil => intro st; exact ⟨[], by simp, by simp⟩
  | cons it its ih =>
    intro st
    rw [List.foldl_cons]
    rcases processItem_edges_extra env src st it with ⟨mid, h1, h2⟩
    rcases ih (processItem env src st it) with ⟨extra, h3, h4⟩
    refine ⟨mid ++ extra, ?_, ?_⟩
    · rw [h3, h1, List.append_assoc]
    · intro e he
      rcases List.mem_append.mp he with h | h
      · exact h2 e h
      · exact h4 e h

theorem processItem_nodeIds (env : FreshEnv) (src : GraphNode)
    (st : MergeState) (it : GeneratedItem) :
    nodeIds (processItem env src st it).nodes = nodeIds st.nodes ∨
    nodeIds (processItem env src st it).nodes =
      nodeIds st.nodes ++ [env.freshId st.fresh] := by
  cases h : findLastLabel (jsToLower it.label) st.nodes with
  | some ex =>
    rw [processItem_found env src st it ex h]
    left
    by_cases hg : (!truthyS ex.explanation && it.explanation != "") = true
    · rw [if_pos hg]
      exact backfillLast_nodeIds _ _ _
    · rw [if_neg hg]
  | none =>
    rw [processItem_new env src st it h]
    right
    unfold nodeIds
    rw [List.map_append]
    rfl

theorem foldl_nodeIds_extra (env : FreshEnv) (src : GraphNode) :
    ∀ (items : List GeneratedItem) (st : MergeState),
      ∃ newIds, nodeIds (items.foldl (processItem env src) st).nodes =
          nodeIds st.nodes ++ newIds ∧
        ∀ s ∈ newIds, ∃ k, s = env.freshId k := by
  intro items
  induction items with
  | nil => intro st; exact ⟨[], by simp, by simp⟩
  | cons it its ih =>
    intro st
    rw [List.foldl_cons]
    rcases ih (processItem env src st it) with ⟨extra, h3, h4⟩
    rcases processItem_nodeIds env src st it with h1 | h1
    · refine ⟨extra, ?_, h4⟩
      rw [h3, h1]
    · refine ⟨env.freshId st.fresh :: extra, ?_, ?_⟩
      · rw [h3, h1, List.append_assoc]
        rfl
      · intro s hs
        rcases List.mem_cons.mp hs with h | h
        · exact ⟨st.fresh, h⟩
        · exact h4 s h

/-- C1 counterexample: merging into the empty graph from a source node
whose id "s" is not in the node set still pushes an edge whose source
endpoint is "s" — the edge-creation step is not skipped as the claim
states. -/
theorem merge_missing_source_edge_added :
    ("s" ∉ nodeIds (GraphData.mk [] []).nodes) ∧
    ((addToGraph env0 (GraphData.mk [] []) srcMissing [item1]).edges.any
      (fun e => e.source.eqStr "s")) = true := by
  exact ⟨by simp [nodeIds], by decide⟩

/-- C1 as amended (corrected): when the source node id is absent from
the graph's node set and the fresh-id supply never coincides with it,
the merge still processes every item and cannot fail, but performs no
membership check: every edge it adds carries the missing source id as
its source endpoint, and that id is still absent from the resulting node
set, so the added edges dangle. -/
theorem merge_missing_source_dangling (env : FreshEnv) (g : GraphData)
    (src : GraphNode) (items : List GeneratedItem)
    (hsrc : src.id ∉ nodeIds g.nodes)
    (hfresh : ∀ k, env.freshId k ≠ src.id) :
    ∃ extra, (addToGraph env g src items).edges = g.edges ++ extra ∧
      (∀ e ∈ extra, e.source = EdgeEnd.str src.id) ∧
      src.id ∉ nodeIds (addToGraph env g src items).nodes := by
  rcases foldl_edges_extra env src items ⟨g.nodes, g.edges, 0⟩ with ⟨extra, h1, h2⟩
  rcases foldl_nodeIds_extra env src items ⟨g.nodes, g.edges, 0⟩ with ⟨newIds, h3, h4⟩
  refine ⟨extra, h1, h2, ?_⟩
  unfold addToGraph
  rw [h3, List.mem_append]
  rintro (hc | hc)
  · exact hsrc hc
  · rcases h4 _ hc with ⟨k, hk⟩
    exact hfresh k hk.symm

/-- C1 witness: the amended statement instantiated at the empty graph,
the source node with absent id "s", and the one-item batch. -/
theorem merge_missing_source_dangling_witness :
    ("s" ∉ nodeIds (GraphData.mk [] []).nodes) ∧
    (∀ k, env0.freshId k ≠ "s") ∧
    (∃ extra,
      (addToGraph env0 (GraphData.mk [] []) srcMissing [item1]).edges =
        (GraphData.mk [] []).edges ++ extra ∧
      (∀ e ∈ extra, e.source = EdgeEnd.str srcMissing.id) ∧
      srcMissing.id ∉
        nodeIds (addToGraph env0 (GraphData.mk [] []) srcMissing [item1]).nodes) :=
  ⟨by simp [nodeIds], fun _ => show ("n0" : String) ≠ "s" by decide,
   merge_missing_source_dangling env0 (GraphData.mk [] []) srcMissing [item1]
     (by simp [nodeIds]) (fun _ => show ("n0" : String) ≠ "s" by decide)⟩

/-- C3 (code bug): the input graph has exactly one edge between ids "a"
and "b", held in object form as d3's force layout leaves it after a
render; merging from source "b" an item resolving to node "a" misses the
reverse-oriented object-form edge — the third disjunct of the duplicate
test compares endpoint ids in one orientation only — and pushes a second
edge connecting the same unordered pair. -/
theorem merge_duplicate_unordered_pair :
    noDupPairs g3.edges = true ∧
    noDupPairs (addToGraph env0 g3 nodeB [item3]).edges = false := by
  exact ⟨by decide, by decide⟩

/-- C8 counterexample: the source node sits at the defined position
(0, 10), yet the node synthesized by the merge is given no x-coordinate
at all, because the code's truthiness test on `sourceNode.x` treats the
coordinate 0 as absent. -/
theorem merge_zero_coordinate_position_missing :
    srcZero.x = some 0 ∧ srcZero.y = some 10 ∧
    (addToGraph env0 (GraphData.mk [] []) srcZero [item1]).nodes.map
      (fun n => n.x) = [none] := by
  exact ⟨rfl, rfl, by decide⟩

/-! ### Endpoint closure across a merge (C4) -/

theorem pushEdge_closed (src : GraphNode) (tid : String) (it : GeneratedItem)
    (edges : List GraphEdge) (ids : List String)
    (hsrc : src.id ∈ ids) (htid : tid ∈ ids)
    (hcl : ∀ e ∈ edges, e.source.refId ∈ ids ∧ e.target.refId ∈ ids) :
    ∀ e ∈ pushEdge src tid it edges,
      e.source.refId ∈ ids ∧ e.target.refId ∈ ids := by
  intro e he
  rcases pushEdge_cases src tid it edges with hp | hp
  · exact hcl e (hp ▸ he)
  · rw [hp] at he
    rcases List.mem_append.mp he with h | h
    · exact hcl e h
    · rw [List.mem_singleton] at h
      subst h
      exact ⟨hsrc, htid⟩

theorem mem_nodeIds_of_mem {n : GraphNode} {nodes : List GraphNode}
    (h : n ∈ nodes) : n.id ∈ nodeIds nodes := by
  unfold nodeIds
  exact List.mem_map_of_mem _ h

theorem processItem_closed (env : FreshEnv) (src : GraphNode)
    (st : MergeState) (it : GeneratedItem)
    (hsrc : src.id ∈ nodeIds st.nodes)
    (hcl : ∀ e ∈ st.edges, e.source.refId ∈ nodeIds st.nodes ∧
      e.target.refId ∈ nodeIds st.nodes) :
    src.id ∈ nodeIds (processItem env src st it).nodes ∧
    ∀ e ∈ (processItem env src st it).edges,
      e.source.refId ∈ nodeIds (processItem env src st it).nodes ∧
      e.target.refId ∈ nodeIds (processItem env src st it).nodes := by
  cases h : findLastLabel (jsToLower it.label) st.nodes with
  | some ex =>
    rw [processItem_found env src st it ex h]
    dsimp only
    have hids : nodeIds
        (if (!truthyS ex.explanation && it.explanation != "") = true then
           backfillLast (jsToLower it.label) it.explanation st.nodes
         else st.nodes) = nodeIds st.nodes := by
      by_cases hg : (!truthyS ex.explanation && it.explanation != "") = true
      · rw [if_pos hg]; exact backfillLast_nodeIds _ _ _
      · rw [if_neg hg]
    rw [hids]
    have hexid : ex.id ∈ nodeIds st.nodes :=
      mem_nodeIds_of_mem (findLastLabel_mem h)
    exact ⟨hsrc, pushEdge_closed src ex.id it st.edges _ hsrc hexid hcl⟩
  | none =>
    rw [processItem_new env src st it h]
    dsimp only
    have hids : nodeIds (st.nodes ++ [mkNewNode env src it st.fresh]) =
        nodeIds st.nodes ++ [(mkNewNode env src it st.fresh).id] := by
      unfold nodeIds
      rw [List.map_append]
      rfl
    rw [hids]
    refine ⟨List.mem_append_left _ hsrc, ?_⟩
    exact pushEdge_closed src (mkNewNode env src it st.fresh).id it st.edges _
      (List.mem_append_left _ hsrc)
      (List.mem_append_right _ (by simp))
      (fun e he => ⟨List.mem_append_left _ (hcl e he).1,
                    List.mem_append_left _ (hcl e he).2⟩)

theorem foldl_closed (env : FreshEnv) (src : GraphNode) :
    ∀ (items : List GeneratedItem) (st : MergeState),
      src.id ∈ nodeIds st.nodes →
      (∀ e ∈ st.edges, e.source.refId ∈ nodeIds st.nodes ∧
        e.target.refId ∈ nodeIds st.nodes) →
      src.id ∈ nodeIds (items.foldl (processItem env src) st).nodes ∧
      ∀ e ∈ (items.foldl (processItem env src) st).edges,
        e.source.refId ∈ nodeIds (items.foldl (processItem env src) st).nodes ∧
        e.target.refId ∈ nodeIds (items.foldl (processItem env src) st).nodes := by
  intro items
  induction items with
  | nil => intro st h1 h2; exact ⟨h1, h2⟩
  | cons it its ih =>
    intro st h1 h2
    rw [List.foldl_cons]
    rcases processItem_closed env src st it h1 h2 with ⟨h1', h2'⟩
    exact ih (processItem env src st it) h1' h2'

/-- C4 (confirmed): if the source node id names a node of the input
graph and every edge endpoint of the input references a node of its node
set, then after the merge every edge endpoint — by denoted id, whether
in string or object form — still references a node of the resulting
node set. -/
theorem merge_edges_closed (env : FreshEnv) (g : GraphData) (src : GraphNode)
    (items : List GeneratedItem)
    (hsrc : src.id ∈ nodeIds g.nodes) (hcl : edgesClosed g) :
    edgesClosed (addToGraph env g src items) := by
  unfold edgesClosed at hcl ⊢
  unfold addToGraph
  exact (foldl_closed env src items ⟨g.nodes, g.edges, 0⟩ hsrc hcl).2

/-- C4 witness: the invariant holds on a one-node closed graph and is
preserved by merging a fresh item from that node. -/
theorem merge_edges_closed_witness :
    (nodeA.id ∈ nodeIds (GraphData.mk [nodeA] []).nodes) ∧
    edgesClosed (GraphData.mk [nodeA] []) ∧
    edgesClosed (addToGraph env0 (GraphData.mk [nodeA] []) nodeA [item1]) :=
  ⟨by decide, by intro e he; simp at he,
   merge_edges_closed env0 (GraphData.mk [nodeA] []) nodeA [item1]
     (by decide) (by intro e he; simp at he)⟩

/-! ### First-writer-wins backfill (C5) -/

theorem backfillLast_getElem_of_truthy (key e : String)
    (nodes : List GraphNode) (i : Nat) (n : GraphNode)
    (hget : nodes[i]? = some n)
    (hfl : ∀ ex, findLastLabel key nodes = some ex →
      truthyS ex.explanation = false)
    (hn : truthyS n.explanation = true) :
    (backfillLast key e nodes)[i]? = some n := by
  rcases backfillLast_spec key e nodes with ⟨-, hb⟩ | ⟨ex, j, h1, h2, h3⟩
  · rw [hb]; exact hget
  · rw [h3]
    by_cases hij : j = i
    · subst hij
      have hne : some ex = some n := h2.symm.trans hget
      cases hne
      rw [hfl n h1] at hn
      exact absurd hn (by simp)
    · rw [List.getElem?_set_ne hij]
      exact hget

theorem processItem_preserves_truthy (env : FreshEnv) (src : GraphNode)
    (st : MergeState) (it : GeneratedItem) (i : Nat) (n : GraphNode)
    (hget : st.nodes[i]? = some n) (hn : truthyS n.explanation = true) :
    (processItem env src st it).nodes[i]? = some n := by
  cases h : findLastLabel (jsToLower it.label) st.nodes with
  | some ex =>
    rw [processItem_found env src st it ex h]
    dsimp only
    by_cases hg : (!truthyS ex.explanation && it.explanation != "") = true
    · rw [if_pos hg]
      refine backfillLast_getElem_of_truthy _ _ _ _ _ hget ?_ hn
      intro ex' hex'
      have hee : some ex = some ex' := h.symm.trans hex'
      cases hee
      simp at hg
      exact hg.1
    · rw [if_neg hg]
      exact hget
  | none =>
    rw [processItem_new env src st it h]
    dsimp only
    have hi : i < st.nodes.length := (List.getElem?_eq_some.mp hget).1
    rw [List.getElem?_append, if_pos hi]
    exact hget

theorem foldl_preserves_truthy (env : FreshEnv) (src : GraphNode) :
    ∀ (items : List GeneratedItem) (st : MergeState) (i : Nat) (n : GraphNode),
      st.nodes[i]? = some n → truthyS n.explanation = true →
      (items.foldl (processItem env src) st).nodes[i]? = some n := by
  intro items
  induction items with
  | nil => intro st i n hget _; exact hget
  | cons it its ih =>
    intro st i n hget hn
    rw [List.foldl_cons]
    exact ih (processItem env src st it) i n
      (processItem_preserves_truthy env src st it i n hget hn) hn

/-- C5 (confirmed): a node whose cached explanation is a non-empty
string is left untouched by any merge — backfilling is first-writer-wins
and never overwrites a non-empty cached explanation. -/
theorem merge_preserves_nonempty_explanation (env : FreshEnv) (g : GraphData)
    (src : GraphNode) (items : List GeneratedItem) (i : Nat) (n : GraphNode)
    (hget : g.nodes[i]? = some n) (hn : truthyS n.explanation = true) :
    (addToGraph env g src items).nodes[i]? = some n := by
  unfold addToGraph
  exact foldl_preserves_truthy env src items ⟨g.nodes, g.edges, 0⟩ i n hget hn

/-- C5 witness: the node cached as "cached" survives a merge whose item
resolves to it and carries a different explanation. -/
theorem merge_preserves_nonempty_explanation_witness :
    ((GraphData.mk [nodeE] []).nodes[0]? = some nodeE) ∧
    truthyS nodeE.explanation = true ∧
    (addToGraph env0 (GraphData.mk [nodeE] []) nodeE [itemEcho]).nodes[0]? =
      some nodeE :=
  ⟨by decide, by decide,
   merge_preserves_nonempty_explanation env0 (GraphData.mk [nodeE] []) nodeE
     [itemEcho] 0 nodeE (by decide) (by decide)⟩

/-! ### Position seeding near the source (C8) -/

theorem backfillLast_getElem_xy (key e : String) (nodes : List GraphNode)
    (i : Nat) (n : GraphNode)
    (hget : (backfillLast key e nodes)[i]? = some n) :
    ∃ n₀, nodes[i]? = some n₀ ∧ n.x = n₀.x ∧ n.y = n₀.y := by
  rcases backfillLast_spec key e nodes with ⟨-, hb⟩ | ⟨ex, j, -, h2, h3⟩
  · rw [hb] at hget
    exact ⟨n, hget, rfl, rfl⟩
  · rw [h3] at hget
    by_cases hij : j = i
    · subst hij
      have hlen : j < nodes.length := (List.getElem?_eq_some.mp h2).1
      rw [List.getElem?_set, if_pos rfl, if_pos hlen] at hget
      cases hget
      exact ⟨ex, h2, rfl, rfl⟩
    · rw [List.getElem?_set_ne hij] at hget
      exact ⟨n, hget, rfl, rfl⟩

theorem mkNewNode_x (env : FreshEnv) (src : GraphNode) (it : GeneratedItem)
    (k : Nat) (qx : ℚ) (hx : src.x = some qx) (hx0 : qx ≠ 0) :
    (mkNewNode env src it k).x = some (qx + (env.rx k - 1/2) * 60) := by
  unfold mkNewNode
  dsimp only
  rw [hx]
  have ht : truthyQ (some qx) = true := by simp [truthyQ, hx0]
  rw [ht]
  simp [Option.getD]

theorem mkNewNode_y (env : FreshEnv) (src : GraphNode) (it : GeneratedItem)
    (k : Nat) (qy : ℚ) (hy : src.y = some qy) (hy0 : qy ≠ 0) :
    (mkNewNode env src it k).y = some (qy + (env.ry k - 1/2) * 60) := by
  unfold mkNewNode
  dsimp only
  rw [hy]
  have ht : truthyQ (some qy) = true := by simp [truthyQ, hy0]
  rw [ht]
  simp [Option.getD]

theorem jitter_abs_le (q r : ℚ) (h0 : 0 ≤ r) (h1 : r < 1) :
    |q + (r - 1/2) * 60 - q| ≤ 30 := by
  have he : q + (r - 1/2) * 60 - q = 60 * r - 30 := by ring
  rw [he, abs_le]
  constructor <;> linarith

theorem processItem_near (env : FreshEnv) (src : GraphNode) (qx qy : ℚ)
    (hx : src.x = some qx) (hx0 : qx ≠ 0)
    (hy : src.y = some qy) (hy0 : qy ≠ 0)
    (hrx : ∀ k, 0 ≤ env.rx k ∧ env.rx k < 1)
    (hry : ∀ k, 0 ≤ env.ry k ∧ env.ry k < 1)
    (st : MergeState) (it : GeneratedItem) (base : Nat)
    (hinv : ∀ i n, base ≤ i → st.nodes[i]? = some n →
      (∃ a, n.x = some a ∧ |a - qx| ≤ 30) ∧
      (∃ b, n.y = some b ∧ |b - qy| ≤ 30)) :
    ∀ i n, base ≤ i → (processItem env src st it).nodes[i]? = some n →
      (∃ a, n.x = some a ∧ |a - qx| ≤ 30) ∧
      (∃ b, n.y = some b ∧ |b - qy| ≤ 30) := by
  intro i n hbase hget
  cases h : findLastLabel (jsToLower it.label) st.nodes with
  | some ex =>
    rw [processItem_found env src st it ex h] at hget
    dsimp only at hget
    by_cases hg : (!truthyS ex.explanation && it.explanation != "") = true
    · rw [if_pos hg] at hget
      rcases backfillLast_getElem_xy _ _ _ _ _ hget with ⟨n₀, hget₀, hxeq, hyeq⟩
      rcases hinv i n₀ hbase hget₀ with ⟨⟨a, ha, hab⟩, ⟨b, hb, hbb⟩⟩
      exact ⟨⟨a, by rw [hxeq, ha], hab⟩, ⟨b, by rw [hyeq, hb], hbb⟩⟩
    · rw [if_neg hg] at hget
      exact hinv i n hbase hget
  | none =>
    rw [processItem_new env src st it h] at hget
    dsimp only at hget
    have hlen : i < st.nodes.length + 1 := by
      have h' := (List.getElem?_eq_some.mp hget).1
      simpa using h'
    rw [List.getElem?_append] at hget
    by_cases hi : i < st.nodes.length
    · rw [if_pos hi] at hget
      exact hinv i n hbase hget
    · have hieq : i - st.nodes.length = 0 := by omega
      rw [if_neg hi, hieq] at hget
      simp only [List.getElem?_cons_zero, Option.some.injEq] at hget
      subst hget
      constructor
      · refine ⟨qx + (env.rx st.fresh - 1/2) * 60,
          mkNewNode_x env src it st.fresh qx hx hx0, ?_⟩
        exact jitter_abs_le qx (env.rx st.fresh) (hrx st.fresh).1 (hrx st.fresh).2
      · refine ⟨qy + (env.ry st.fresh - 1/2) * 60,
          mkNewNode_y env src it st.fresh qy hy hy0, ?_⟩
        exact jitter_abs_le qy (env.ry st.fresh) (hry st.fresh).1 (hry st.fresh).2

theorem foldl_near (env : FreshEnv) (src : GraphNode) (qx qy : ℚ)
    (hx : src.x = some qx) (hx0 : qx ≠ 0)
    (hy : src.y = some qy) (hy0 : qy ≠ 0)
    (hrx : ∀ k, 0 ≤ env.rx k ∧ env.rx k < 1)
    (hry : ∀ k, 0 ≤ env.ry k ∧ env.ry k < 1) :
    ∀ (items : List GeneratedItem) (st : MergeState) (base : Nat),
      (∀ i n, base ≤ i → st.nodes[i]? = some n →
        (∃ a, n.x = some a ∧ |a - qx| ≤ 30) ∧
        (∃ b, n.y = some b ∧ |b - qy| ≤ 30)) →
      ∀ i n, base ≤ i →
        (items.foldl (processItem env src) st).nodes[i]? = some n →
        (∃ a, n.x = some a ∧ |a - qx| ≤ 30) ∧
        (∃ b, n.y = some b ∧ |b - qy| ≤ 30) := by
  intro items
  induction items with
  | nil => intro st base hinv i n hbase hget; exact hinv i n hbase hget
  | cons it its ih =>
    intro st base hinv i n hbase hget
    rw [List.foldl_cons] at hget
    exact ih (processItem env src st it) base
      (processItem_near env src qx qy hx hx0 hy hy0 hrx hry st it base hinv)
      i n hbase hget

/-- C8 as amended (corrected): when the source node's position has both
coordinates defined and nonzero — the code's truthiness test treats a 0
coordinate as absent — every node the merge synthesizes (every node
beyond the input graph's length) is assigned defined coordinates, each
within 30 units of the source's corresponding coordinate, for every
jitter draw in the interval from 0 inclusive to 1 exclusive. -/
theorem merge_new_nodes_near_source (env : FreshEnv) (g : GraphData)
    (src : GraphNode) (items : List GeneratedItem) (qx qy : ℚ)
    (hx : src.x = some qx) (hx0 : qx ≠ 0)
    (hy : src.y = some qy) (hy0 : qy ≠ 0)
    (hrx : ∀ k, 0 ≤ env.rx k ∧ env.rx k < 1)
    (hry : ∀ k, 0 ≤ env.ry k ∧ env.ry k < 1) :
    ∀ i n, g.nodes.length ≤ i →
      (addToGraph env g src items).nodes[i]? = some n →
      (∃ a, n.x = some a ∧ |a - qx| ≤ 30) ∧
      (∃ b, n.y = some b ∧ |b - qy| ≤ 30) := by
  intro i n hbase hget
  unfold addToGraph at hget
  refine foldl_near env src qx qy hx hx0 hy hy0 hrx hry items
    ⟨g.nodes, g.edges, 0⟩ g.nodes.length ?_ i n hbase hget
  intro j m hj hm
  rw [List.getElem?_eq_none hj] at hm
  exact absurd hm (by simp)

/-- C8 witness: merging one fresh item from a source at position (5, 7)
with both jitter draws at one half places the new node at (5, 7), within
30 units of the source on both axes. -/
theorem merge_new_nodes_near_source_witness :
    srcPos.x = some 5 ∧ (5 : ℚ) ≠ 0 ∧ srcPos.y = some 7 ∧ (7 : ℚ) ≠ 0 ∧
    (∃ a, nPos.x = some a ∧ |a - 5| ≤ 30) ∧
    (∃ b, nPos.y = some b ∧ |b - 7| ≤ 30) :=
  ⟨rfl, by norm_num, rfl, by norm_num,
   merge_new_nodes_near_source env0 (GraphData.mk [] []) srcPos [item1] 5 7
     rfl (by norm_num) rfl (by norm_num)
     (fun _ => ⟨show (0 : ℚ) ≤ 1/2 by norm_num, show (1 : ℚ)/2 < 1 by norm_num⟩)
     (fun _ => ⟨show (0 : ℚ) ≤ 1/2 by norm_num, show (1 : ℚ)/2 < 1 by norm_num⟩)
     0 nPos (by simp) (by rfl)⟩

/-! ### Empty-string explanations are treated as absent (C10) -/

/-- C10 (confirmed): merge treats an empty-string cached explanation as
absent — for an item resolving to an existing node, that node's
explanation is replaced by the item's exactly when the cached value is
undefined or the empty string and the item's explanation is a non-empty
string; otherwise the node list is unchanged, so an item carrying an
empty-string explanation never backfills anything, while a node cached
with the empty string can be overwritten by a later merge. -/
theorem merge_backfill_iff (env : FreshEnv) (g : GraphData) (src : GraphNode)
    (item : GeneratedItem) (ex : GraphNode)
    (hfind : findLastLabel (jsToLower item.label) g.nodes = some ex) :
    if ex.explanation.getD "" = "" ∧ item.explanation ≠ "" then
      ∃ i, g.nodes[i]? = some ex ∧
        (addToGraph env g src [item]).nodes =
          g.nodes.set i { ex with explanation := some item.explanation }
    else (addToGraph env g src [item]).nodes = g.nodes := by
  have heq : (addToGraph env g src [item]).nodes =
      (processItem env src ⟨g.nodes, g.edges, 0⟩ item).nodes := rfl
  rw [processItem_found env src ⟨g.nodes, g.edges, 0⟩ item ex hfind] at heq
  dsimp only at heq
  have hguard : (!truthyS ex.explanation && item.explanation != "") = true ↔
      (ex.explanation.getD "" = "" ∧ item.explanation ≠ "") := by
    cases hexp : ex.explanation with
    | none => simp [truthyS]
    | some s => simp [truthyS]
  by_cases hc : ex.explanation.getD "" = "" ∧ item.explanation ≠ ""
  · rw [if_pos hc]
    rw [if_pos (hguard.mpr hc)] at heq
    rcases backfillLast_spec (jsToLower item.label) item.explanation g.nodes with
      ⟨h1, -⟩ | ⟨ex', i, h1, h2, h3⟩
    · rw [h1] at hfind
      exact absurd hfind (by simp)
    · have hee : ex' = ex := by
        rw [h1] at hfind
        exact Option.some.inj hfind
      subst hee
      exact ⟨i, h2, by rw [heq, h3]⟩
  · rw [if_neg hc]
    rw [if_neg (fun hh => hc (hguard.mp hh))] at heq
    exact heq

/-- C10 witness: the empty-string cache on `nodeEmpty` is overwritten by
a later merge whose item carries the non-empty explanation "filled". -/
theorem merge_backfill_iff_witness :
    (findLastLabel (jsToLower itemDelta.label)
      (GraphData.mk [nodeEmpty] []).nodes = some nodeEmpty) ∧
    (if nodeEmpty.explanation.getD "" = "" ∧ itemDelta.explanation ≠ "" then
       ∃ i, (GraphData.mk [nodeEmpty] []).nodes[i]? = some nodeEmpty ∧
         (addToGraph env0 (GraphData.mk [nodeEmpty] []) nodeEmpty
           [itemDelta]).nodes =
           (GraphData.mk [nodeEmpty] []).nodes.set i
             { nodeEmpty with explanation := some itemDelta.explanation }
     else (addToGraph env0 (GraphData.mk [nodeEmpty] []) nodeEmpty
       [itemDelta]).nodes = (GraphData.mk [nodeEmpty] []).nodes) :=
  ⟨by decide,
   merge_backfill_iff env0 (GraphData.mk [nodeEmpty] []) nodeEmpty itemDelta
     nodeEmpty (by decide)⟩

/-! ### Gesture disambiguation (C6, C7) -/

/-- C6 (confirmed): a press released within 1000 ms with no movement
invokes the click callback exactly once and the long-press callback zero
times — the timer is still pending at release, so it is cancelled and
neither `isDragging` nor `longPressTriggered` suppresses the click. -/
theorem tap_fires_click_only (hold : Nat) (h : hold < 1000) :
    (runGesture (tapTrace hold)).clickCount = 1 ∧
    (runGesture (tapTrace hold)).longPressCount = 0 := by
  have hn : ¬ (1000 ≤ hold) := by omega
  rw [tapTrace, if_neg hn]
  exact ⟨by decide, by decide⟩

/-- C6 witness: a 500 ms tap clicks once and never long-presses. -/
theorem tap_fires_click_only_witness :
    500 < 1000 ∧ (runGesture (tapTrace 500)).clickCount = 1 ∧
    (runGesture (tapTrace 500)).longPressCount = 0 :=
  ⟨by decide, tap_fires_click_only 500 (by decide)⟩

/-- C7 (confirmed): a press held at least 1000 ms with no movement fires
the long-press callback exactly once, when the timer fires, and the
click callback zero times on the subsequent release —
`longPressTriggered` suppresses the click handler. -/
theorem hold_fires_long_press_only (hold : Nat) (h : 1000 ≤ hold) :
    (runGesture (tapTrace hold)).longPressCount = 1 ∧
    (runGesture (tapTrace hold)).clickCount = 0 := by
  rw [tapTrace, if_pos h]
  exact ⟨by decide, by decide⟩

/-- C7 witness: a 1200 ms hold long-presses once and never clicks. -/
theorem hold_fires_long_press_only_witness :
    1000 ≤ 1200 ∧ (runGesture (tapTrace 1200)).longPressCount = 1 ∧
    (runGesture (tapTrace 1200)).clickCount = 0 :=
  ⟨by decide, hold_fires_long_press_only 1200 (by decide)⟩
